import Mathlib

/-!
# Verification of the ms-365-mcp-server endpoint dispatch engine

A shallow embedding, in Lean 4, of the core logic of the repository:

* `src/graph-client.ts`   — `GraphClient.makeRequest`, `refreshAccessToken`,
  `performRequest`, `formatJsonResponse`, `graphRequest`;
* `src/graph-tools.ts`    — `executeGraphTool` (parameter binding, OData
  normalization, `fetchAllPages` aggregation), `matchesFilter`,
  `collectSharePointFiles` / `walk`, `registerGraphTools`
  (including the `download-file-to-local` handler).

JavaScript values flowing through the engine are modelled by a `Json`
inductive; JavaScript string truthiness (`''` is falsy) is modelled
explicitly.  Response texts that the code produces with `JSON.stringify`
and immediately re-parses with `JSON.parse` are represented by the parsed
`Json` value (the stringify/parse round trip is the identity on this type).
-/

namespace MsGraph

/-- JSON values (decoded JavaScript objects as moved around by the code).
Numbers are restricted to integers, which covers every value the claims
touch (item counts, sizes, statuses). -/
inductive Json where
  | null : Json
  | bool : Bool → Json
  | num : Int → Json
  | str : String → Json
  | arr : List Json → Json
  | obj : List (String × Json) → Json
deriving Repr

mutual

/-- Boolean equality on `Json`. -/
def Json.beq : Json → Json → Bool
  | .null, .null => true
  | .bool a, .bool b => a == b
  | .num a, .num b => a == b
  | .str a, .str b => a == b
  | .arr a, .arr b => Json.beqList a b
  | .obj a, .obj b => Json.beqObj a b
  | _, _ => false

/-- Boolean equality on JSON arrays. -/
def Json.beqList : List Json → List Json → Bool
  | [], [] => true
  | a :: as, b :: bs => Json.beq a b && Json.beqList as bs
  | _, _ => false

/-- Boolean equality on JSON object field lists. -/
def Json.beqObj : List (String × Json) → List (String × Json) → Bool
  | [], [] => true
  | (k, a) :: as, (l, b) :: bs => k == l && Json.beq a b && Json.beqObj as bs
  | _, _ => false

end

mutual

theorem jsonBeq_iff : ∀ a b : Json, Json.beq a b = true ↔ a = b
  | .null, b => by cases b <;> simp [Json.beq]
  | .bool x, b => by cases b <;> simp [Json.beq]
  | .num x, b => by cases b <;> simp [Json.beq]
  | .str x, b => by cases b <;> simp [Json.beq]
  | .arr xs, b => by
      cases b <;> simp [Json.beq]
      exact jsonBeqList_iff xs _
  | .obj xs, b => by
      cases b <;> simp [Json.beq]
      exact jsonBeqObj_iff xs _

theorem jsonBeqList_iff : ∀ a b : List Json, Json.beqList a b = true ↔ a = b
  | [], b => by cases b <;> simp [Json.beqList]
  | x :: xs, b => by
      cases b with
      | nil => simp [Json.beqList]
      | cons y ys =>
          simp [Json.beqList, jsonBeq_iff x y, jsonBeqList_iff xs ys]

theorem jsonBeqObj_iff : ∀ a b : List (String × Json),
    Json.beqObj a b = true ↔ a = b
  | [], b => by cases b <;> simp [Json.beqObj]
  | (k, x) :: xs, b => by
      cases b with
      | nil => simp [Json.beqObj]
      | cons y ys =>
          obtain ⟨l, v⟩ := y
          simp [Json.beqObj, jsonBeq_iff x v, jsonBeqObj_iff xs ys,
            and_assoc]

end

instance : DecidableEq Json := fun a b =>
  decidable_of_iff (Json.beq a b = true) (jsonBeq_iff a b)

/-- JavaScript truthiness of a JSON value (`undefined` is modelled as an
absent `Option`, handled at use sites). -/
def Json.truthy : Json → Bool
  | .null => false
  | .bool b => b
  | .num n => n != 0
  | .str s => s != ""
  | .arr _ => true
  | .obj _ => true

/-- Look up a field of a JSON object; `none` models `undefined`
(absent field or non-object receiver). -/
def Json.getField : Json → String → Option Json
  | .obj fs, k => (fs.find? (fun p => p.1 == k)).map (·.2)
  | _, _ => none

/-- `true` iff the value is an object carrying the key (JavaScript
`key in obj`). -/
def Json.hasField (j : Json) (k : String) : Bool :=
  (j.getField k).isSome

/-- Set a key of an object field list as JavaScript property assignment /
object spread does: an existing key keeps its position and gets the new
value, a new key is appended. -/
def objSet (fs : List (String × Json)) (k : String) (v : Json) :
    List (String × Json) :=
  if fs.any (fun p => p.1 == k) then
    fs.map (fun p => if p.1 == k then (p.1, v) else p)
  else fs ++ [(k, v)]

/-- Delete a key from an object field list (JavaScript `delete obj[k]`). -/
def objDelete (fs : List (String × Json)) (k : String) :
    List (String × Json) :=
  fs.filter (fun p => p.1 != k)

/-- Same update operation on string-valued maps (query / header objects). -/
def strMapSet (fs : List (String × String)) (k v : String) :
    List (String × String) :=
  if fs.any (fun p => p.1 == k) then
    fs.map (fun p => if p.1 == k then (p.1, v) else p)
  else fs ++ [(k, v)]

mutual

/-- JavaScript `String(value)` coercion as used by the template literals
in the binder. Arrays join their elements with `,`; plain objects print
as `[object Object]`. -/
def jsToString : Json → String
  | .null => "null"
  | .bool true => "true"
  | .bool false => "false"
  | .num n => toString n
  | .str s => s
  | .arr xs => jsToStringList xs
  | .obj _ => "[object Object]"

/-- `Array.prototype.toString`: comma-joined element coercions. -/
def jsToStringList : List Json → String
  | [] => ""
  | [x] => jsToString x
  | x :: xs => jsToString x ++ "," ++ jsToStringList xs

end

/-- Escape `"` and `\` in a JSON string body. -/
def jsonEscape : List Char → String
  | [] => ""
  | c :: cs =>
      (if c = '"' then "\\\"" else if c = '\\' then "\\\\" else String.mk [c])
        ++ jsonEscape cs

mutual

/-- `JSON.stringify` (compact form) on the `Json` model.  Only `"` and
`\` are escaped, which is faithful for every string the development
manipulates. -/
def Json.stringify : Json → String
  | .null => "null"
  | .bool true => "true"
  | .bool false => "false"
  | .num n => toString n
  | .str s => "\"" ++ jsonEscape s.toList ++ "\""
  | .arr xs => "[" ++ Json.stringifyList xs ++ "]"
  | .obj fs => "\x7b" ++ Json.stringifyObj fs ++ "\x7d"

/-- Stringify the elements of a JSON array, comma separated. -/
def Json.stringifyList : List Json → String
  | [] => ""
  | [x] => Json.stringify x
  | x :: xs => Json.stringify x ++ "," ++ Json.stringifyList xs

/-- Stringify the fields of a JSON object, comma separated. -/
def Json.stringifyObj : List (String × Json) → String
  | [] => ""
  | [(k, v)] => "\"" ++ jsonEscape k.toList ++ "\":" ++ Json.stringify v
  | (k, v) :: fs =>
      "\"" ++ jsonEscape k.toList ++ "\":" ++ Json.stringify v ++ "," ++
        Json.stringifyObj fs

end

/-! ## String utilities shared by several components

Character-list implementations of the JavaScript string operations the
code uses; they reduce inside the kernel, which the byte-position-based
core `String` functions do not. -/

/-- `String.prototype.startsWith`. -/
def strStartsWith (s p : String) : Bool :=
  p.toList.isPrefixOf s.toList

/-- `String.prototype.endsWith`. -/
def strEndsWith (s p : String) : Bool :=
  p.toList.isSuffixOf s.toList

/-- `String.prototype.toLowerCase` (ASCII, which covers the reserved
vocabularies involved). -/
def strLower (s : String) : String :=
  (s.toList.map Char.toLower).asString

/-- `String.prototype.toUpperCase` (ASCII). -/
def strUpper (s : String) : String :=
  (s.toList.map Char.toUpper).asString

/-- Drop the first `n` characters. -/
def strDrop (s : String) (n : Nat) : String :=
  (s.toList.drop n).asString

/-- Drop the last `n` characters. -/
def strDropRight (s : String) (n : Nat) : String :=
  (s.toList.take (s.toList.length - n)).asString

/-- Split a character list on a separator character. -/
def splitOnChar (sep : Char) : List Char → List (List Char)
  | [] => [[]]
  | c :: rest =>
      let r := splitOnChar sep rest
      if c == sep then [] :: r
      else
        match r with
        | [] => [[c]]
        | g :: gs => (c :: g) :: gs

/-- `String.prototype.split` with a single-character separator. -/
def strSplitOnChar (s : String) (sep : Char) : List String :=
  (splitOnChar sep s.toList).map List.asString

/-- `Array.prototype.join` on strings. -/
def strIntercalate (sep : String) : List String → String
  | [] => ""
  | [x] => x
  | x :: xs => x ++ sep ++ strIntercalate sep xs

/-- Substring occurrence test on character lists
(JavaScript `String.prototype.includes`). -/
def listContainsSub (pat : List Char) : List Char → Bool
  | [] => pat.isEmpty
  | c :: rest => pat.isPrefixOf (c :: rest) || listContainsSub pat rest

/-- Substring occurrence test on strings. -/
def strContainsSub (s pat : String) : Bool :=
  listContainsSub pat.toList s.toList

/-- Replace the first occurrence of `pat` by `rep`
(JavaScript `String.prototype.replace` with a string pattern). -/
def listReplaceFirst (pat rep : List Char) : List Char → List Char
  | [] => []
  | c :: rest =>
      if pat.isPrefixOf (c :: rest) then rep ++ (c :: rest).drop pat.length
      else c :: listReplaceFirst pat rep rest

/-- `String.prototype.replace` with a string pattern: first occurrence only. -/
def strReplaceFirst (s pat rep : String) : String :=
  (listReplaceFirst pat.toList rep.toList s.toList).asString

/-! ## `encodeURIComponent` -/

/-- The characters `encodeURIComponent` leaves unencoded. -/
def uriUnreserved (c : Char) : Bool :=
  (('A' ≤ c && c ≤ 'Z') || ('a' ≤ c && c ≤ 'z') || ('0' ≤ c && c ≤ '9')
    || c = '-' || c = '_' || c = '.' || c = '!' || c = '~' || c = '*'
    || c = '\'' || c = '(' || c = ')')

/-- Upper-case hexadecimal digit of `n % 16`. -/
def hexDigit (n : Nat) : Char :=
  "0123456789ABCDEF".toList.getD (n % 16) '0'

/-- Percent-encoding of one byte. -/
def pctByte (b : Nat) : List Char :=
  ['%', hexDigit (b / 16), hexDigit b]

/-- UTF-8 bytes of a code point. -/
def utf8Bytes (n : Nat) : List Nat :=
  if n < 0x80 then [n]
  else if n < 0x800 then [0xC0 + n / 64, 0x80 + n % 64]
  else if n < 0x10000 then
    [0xE0 + n / 4096, 0x80 + (n / 64) % 64, 0x80 + n % 64]
  else
    [0xF0 + n / 262144, 0x80 + (n / 4096) % 64, 0x80 + (n / 64) % 64,
      0x80 + n % 64]

/-- Encoding of one character under `encodeURIComponent`. -/
def encodeChar (c : Char) : List Char :=
  if uriUnreserved c then [c]
  else (utf8Bytes c.toNat).flatMap pctByte

/-- JavaScript `encodeURIComponent`. -/
def encodeURIComponent (s : String) : String :=
  (s.toList.flatMap encodeChar).asString

/-! ## C1 — the `download-file-to-local` handler

Model of the handler registered in `registerGraphTools`
(`src/graph-tools.ts:895-941`): resolve the target against the resolved
base directory, reject on the `startsWith` guard, reject an existing file
unless `overwrite`, then `mkdirSync` the parent and `writeFileSync` the
buffer.  Paths are POSIX absolute paths rendered as strings. -/

/-- Split a path string into its non-empty components. -/
def splitPath (s : String) : List String :=
  (strSplitOnChar s '/').filter (fun c => c ≠ "")

/-- Process `.` and `..` components the way Node's path normalization does
for absolute paths (`..` at the root stays at the root). -/
def normalizeComponents (cs : List String) : List String :=
  cs.foldl
    (fun acc c =>
      if c = "." then acc
      else if c = ".." then acc.dropLast
      else acc ++ [c])
    []

/-- Render absolute-path components as a string. -/
def renderPath (cs : List String) : String :=
  "/" ++ strIntercalate "/" cs

/-- Node `path.resolve(base, rel)` for an already-resolved absolute
`base`: an absolute `rel` wins, otherwise `rel` is appended and the
result normalized. -/
def resolvePath (base rel : String) : String :=
  if strStartsWith rel "/" then renderPath (normalizeComponents (splitPath rel))
  else renderPath (normalizeComponents (splitPath base ++ splitPath rel))

/-- Node `path.dirname` on an absolute path. -/
def dirnamePath (s : String) : String :=
  renderPath ((splitPath s).dropLast)

/-- Filesystem effects the handler can perform, in order. -/
inductive FsEffect where
  | mkdir (dir : String)
  | write (file : String)
deriving DecidableEq, Repr

/-- Outcome of a `download-file-to-local` call. -/
inductive DownloadOutcome where
  | rejectedTraversal
  | rejectedExists
  | downloadFailed
  | written (target : String)
deriving DecidableEq, Repr

/-- The `download-file-to-local` handler: guard order and the filesystem
effects it performs.  `resolvedBase` is `path.resolve(baseDir)`;
`existsAt` models `existsSync`; `downloadOk` models whether
`downloadBinary` succeeds (its failure happens after `mkdirSync` and
before `writeFileSync`). -/
def downloadFileToLocal (resolvedBase localPath : String) (overwrite : Bool)
    (existsAt : String → Bool) (downloadOk : Bool) :
    DownloadOutcome × List FsEffect :=
  let targetPath := resolvePath resolvedBase localPath
  if !(strStartsWith targetPath resolvedBase) then
    (.rejectedTraversal, [])
  else if !overwrite && existsAt targetPath then
    (.rejectedExists, [])
  else if downloadOk then
    (.written targetPath, [.mkdir (dirnamePath targetPath), .write targetPath])
  else
    (.downloadFailed, [.mkdir (dirnamePath targetPath)])

/-- The spec-side notion of a resolved path escaping the base directory:
the target is neither the base itself nor strictly inside it. -/
def escapesBaseDir (resolvedBase target : String) : Bool :=
  !(target == resolvedBase || strStartsWith target (resolvedBase ++ "/"))

/-! ## `GraphClient` (`src/graph-client.ts`)

The decoded HTTP body is classified the way `makeRequest` classifies the
text it reads: empty, JSON-parsable, or non-JSON raw text. -/

/-- The text of an HTTP response body, as seen by `await response.text()`
followed by `JSON.parse`. -/
inductive BodyText where
  | empty : BodyText
  | json : Json → BodyText
  | nonJson : String → BodyText
deriving DecidableEq, Repr

/-- One HTTP response, as inspected by the client: status code, body and
the value of `headers.get('ETag') || headers.get('etag')`. -/
structure HttpResponse where
  status : Nat
  bodyText : BodyText
  etag : Option String
deriving DecidableEq, Repr

/-- `response.ok` of the fetch API. -/
def HttpResponse.ok (r : HttpResponse) : Bool :=
  200 ≤ r.status && r.status < 300

/-- The text the error branches read with `await response.text()`. -/
def BodyText.asText : BodyText → String
  | .empty => ""
  | .json j => j.stringify
  | .nonJson s => s

/-- JavaScript `a || b` on optional strings (`''` and `null`/`undefined`
are falsy). -/
def jsOrStr : Option String → Option String → Option String
  | some s, b => if s == "" then b else some s
  | none, b => b

/-- String truthiness of an optional string. -/
def strTruthy : Option String → Bool
  | some s => s != ""
  | none => false

/-- The mutable token pair held by a `GraphClient` instance. -/
structure GraphClientState where
  accessToken : Option String
  refreshToken : Option String
deriving DecidableEq, Repr

/-- The fields of `GraphRequestOptions` the core reads.  `queryParams` is
carried because the pagination loop stores the cursor's query there —
`performRequest` never reads it. -/
structure GraphRequestOptions where
  headers : List (String × String)
  method : Option String
  body : Option String
  rawResponse : Bool
  includeHeaders : Bool
  excludeResponse : Bool
  accessToken : Option String
  refreshToken : Option String
  queryParams : Option (List (String × String))
deriving Repr

/-- Options with every field absent / off. -/
def noOptions : GraphRequestOptions :=
  ⟨[], none, none, false, false, false, none, none, none⟩

/-- The token-endpoint response of the refresh collaborator
(`refreshAccessToken` in `lib/microsoft-auth`). -/
structure RefreshTokenResponse where
  access_token : String
  refresh_token : Option String
deriving DecidableEq, Repr

/-- The concrete HTTP request `performRequest` hands to `fetch`. -/
structure GraphHttpRequest where
  url : String
  method : String
  headers : List (String × String)
  tokenArg : String
  body : Option String
deriving DecidableEq, Repr

/-- `GraphClient.performRequest`: the URL is the fixed base plus the
endpoint — `options.queryParams` does not participate — and the default
headers can be overridden by `options.headers`. -/
def performRequest (endpoint accessToken : String)
    (options : GraphRequestOptions) : GraphHttpRequest :=
  { url := "https://graph.microsoft.com/v1.0" ++ endpoint
    method := (jsOrStr options.method (some "GET")).getD "GET"
    headers :=
      options.headers.foldl (fun acc p => strMapSet acc p.1 p.2)
        [("Authorization", "Bearer " ++ accessToken),
          ("Content-Type", "application/json")]
    tokenArg := accessToken
    body := options.body }

/-- The errors `makeRequest` / `refreshAccessToken` can throw. -/
inductive GraphError where
  | noAccessToken
  | noClientSecret
  | refreshFailed
  | refreshGaveNoToken
  | scopeError (status : Nat) (body : BodyText)
  | apiError (status : Nat) (body : BodyText)
deriving DecidableEq, Repr

/-- `GraphClient.refreshAccessToken`: requires the client secret, calls
the refresh collaborator, installs the new access token unconditionally
and the new refresh token only when the response carries a truthy one. -/
def refreshAccessTokenStep (st : GraphClientState)
    (clientSecret : Option String)
    (refreshCall : String → Option RefreshTokenResponse)
    (refreshTok : String) : Except GraphError GraphClientState :=
  if !(strTruthy clientSecret) then .error .noClientSecret
  else
    match refreshCall refreshTok with
    | none => .error .refreshFailed
    | some r =>
        .ok { accessToken := some r.access_token
              refreshToken :=
                match r.refresh_token with
                | some s => if s != "" then some s else st.refreshToken
                | none => st.refreshToken }

/-- `etag || 'no-etag-found'`: the `_etag` value merged into the body. -/
def etagValue : Option String → String
  | some s => if s == "" then "no-etag-found" else s
  | none => "no-etag-found"

/-- The final status handling shared by both attempts of `makeRequest`:
403 with a scope/permission indicator, 403 without, any other non-2xx,
then body decoding and the optional `_etag` merge of `includeHeaders`. -/
def handleFinalResponse (resp : HttpResponse) (includeHeaders : Bool) :
    Except GraphError Json :=
  if resp.status == 403 then
    if strContainsSub resp.bodyText.asText "scope"
        || strContainsSub resp.bodyText.asText "permission" then
      .error (.scopeError resp.status resp.bodyText)
    else .error (.apiError resp.status resp.bodyText)
  else if !resp.ok then .error (.apiError resp.status resp.bodyText)
  else
    let result : Json :=
      match resp.bodyText with
      | .empty => .obj [("message", .str "OK!")]
      | .json j => j
      | .nonJson s => .obj [("message", .str "OK!"), ("rawResponse", .str s)]
    if includeHeaders then
      match result with
      | .obj fs => .ok (.obj (objSet fs "_etag" (.str (etagValue resp.etag))))
      | other => .ok other
    else .ok result

/-- Everything `makeRequest` produces: the result (or thrown error), the
possibly-refreshed client state, the access tokens of the attempts it
performed (in order) and the number of refresh-collaborator calls. -/
structure MakeRequestOut where
  result : Except GraphError Json
  state : GraphClientState
  attempts : List GraphHttpRequest
  refreshes : Nat
deriving Repr

/-- `GraphClient.makeRequest`: token selection with fallbacks, one
request, a single refresh-and-retry on 401 when a refresh token is held,
then the shared status handling.  `server` maps (attempt index, concrete
request) to the response; `authTok` models `authManager.getToken()`. -/
def makeRequest (endpoint : String) (options : GraphRequestOptions)
    (st : GraphClientState) (authTok : Option String)
    (server : Nat → GraphHttpRequest → HttpResponse)
    (clientSecret : Option String)
    (refreshCall : String → Option RefreshTokenResponse) : MakeRequestOut :=
  let accessToken? := jsOrStr options.accessToken (jsOrStr st.accessToken authTok)
  let refreshToken? := jsOrStr options.refreshToken st.refreshToken
  if strTruthy accessToken? then
    let tok := accessToken?.getD ""
    let req0 := performRequest endpoint tok options
    let resp0 := server 0 req0
    if resp0.status == 401 && strTruthy refreshToken? then
      match refreshAccessTokenStep st clientSecret refreshCall
          (refreshToken?.getD "") with
      | .error e =>
          { result := .error e, state := st, attempts := [req0]
            refreshes := if e = .refreshFailed then 1 else 0 }
      | .ok st1 =>
          let tok2 := (jsOrStr st1.accessToken (some tok)).getD ""
          if tok2 == "" then
            { result := .error .refreshGaveNoToken, state := st1
              attempts := [req0], refreshes := 1 }
          else
            let req1 := performRequest endpoint tok2 options
            let resp1 := server 1 req1
            { result := handleFinalResponse resp1 options.includeHeaders
              state := st1, attempts := [req0, req1], refreshes := 1 }
    else
      { result := handleFinalResponse resp0 options.includeHeaders
        state := st, attempts := [req0], refreshes := 0 }
  else
    { result := .error .noAccessToken, state := st, attempts := []
      refreshes := 0 }

/-! ## `formatJsonResponse` and `graphRequest` -/

/-- The `_meta` side channel of an MCP response. -/
structure MetaOut where
  etag : Option Json
  headers : Option Json
deriving DecidableEq, Repr

/-- The MCP response envelope, with `content[0].text` represented by the
JSON value it stringifies (round trip is the identity). -/
structure McpOut where
  structured : Json
  meta : Option MetaOut
  isError : Bool
deriving DecidableEq, Repr

/-- `makeStructured` of `formatJsonResponse`: plain objects pass through,
everything else is wrapped under `value`. -/
def makeStructured : Json → Json
  | .obj fs => .obj fs
  | j => .obj [("value", j)]

mutual

/-- The recursive OData-metadata strip of `formatJsonResponse`: delete
every key starting with `@odata.` and recurse into object and array
values. -/
def removeODataProps : Json → Json
  | .obj fs => .obj (removeODataFields fs)
  | .arr xs => .arr (removeODataList xs)
  | j => j

/-- Strip the fields of one object level. -/
def removeODataFields : List (String × Json) → List (String × Json)
  | [] => []
  | (k, v) :: fs =>
      if strStartsWith k "@odata." then removeODataFields fs
      else (k, removeODataProps v) :: removeODataFields fs

/-- Strip the elements of an array. -/
def removeODataList : List Json → List Json
  | [] => []
  | x :: xs => removeODataProps x :: removeODataList xs

end

/-- `GraphClient.formatJsonResponse`: `excludeResponse` short-circuits to
a success indicator; data carrying a `_headers` key is unpacked with its
`_etag`/`_headers` moved to `_meta`; otherwise raw mode, the null check
and the OData strip apply in that order. -/
def formatJsonResponse (data : Json) (rawResponse excludeResponse : Bool) :
    McpOut :=
  if excludeResponse then
    { structured := .obj [("success", .bool true)], meta := none
      isError := false }
  else if data.hasField "_headers" then
    let innerData := data.getField "data"
    let etagF := data.getField "_etag"
    let headersF := data.getField "_headers"
    let meta : MetaOut :=
      { etag := match etagF with
          | some e => if e.truthy then some e else none
          | none => none
        headers := match headersF with
          | some h => if h.truthy then some h else none
          | none => none }
    if rawResponse then
      { structured :=
          makeStructured (innerData.getD (.obj [("success", .bool true)]))
        meta := some meta, isError := false }
    else
      match innerData with
      | none =>
          { structured := .obj [("success", .bool true)], meta := some meta
            isError := false }
      | some .null =>
          { structured := .obj [("success", .bool true)], meta := some meta
            isError := false }
      | some d =>
          { structured := removeODataProps (makeStructured d)
            meta := some meta, isError := false }
  else if rawResponse then
    { structured := makeStructured data, meta := none, isError := false }
  else
    match data with
    | .null =>
        { structured := .obj [("success", .bool true)], meta := none
          isError := false }
    | d =>
        { structured := removeODataProps (makeStructured d), meta := none
          isError := false }

/-- The human-readable messages of the thrown errors, as embedded into
the error envelope by `graphRequest`. -/
def graphErrorMessage : GraphError → String
  | .noAccessToken => "No access token available"
  | .noClientSecret => "MS365_MCP_CLIENT_SECRET not configured"
  | .refreshFailed => "Token refresh failed"
  | .refreshGaveNoToken => "Failed to refresh access token"
  | .scopeError status body =>
      "Microsoft Graph API scope error: " ++ toString status ++ " - " ++
        body.asText ++
        ". This tool requires organization mode. Please restart with --org-mode flag."
  | .apiError status body =>
      "Microsoft Graph API error: " ++ toString status ++ " - " ++ body.asText

/-- `GraphClient.graphRequest`: run `makeRequest`, format the result, and
turn a thrown error into a structured `isError` envelope. -/
def graphRequest (endpoint : String) (options : GraphRequestOptions)
    (st : GraphClientState) (authTok : Option String)
    (server : Nat → GraphHttpRequest → HttpResponse)
    (clientSecret : Option String)
    (refreshCall : String → Option RefreshTokenResponse) :
    McpOut × GraphClientState × List GraphHttpRequest :=
  let out := makeRequest endpoint options st authTok server clientSecret
    refreshCall
  match out.result with
  | .ok j =>
      (formatJsonResponse j options.rawResponse options.excludeResponse,
        out.state, out.attempts)
  | .error e =>
      ({ structured := .obj [("error", .str (graphErrorMessage e))]
         meta := none, isError := true }, out.state, out.attempts)

/-! ## Parameter binding (`executeGraphTool`, `src/graph-tools.ts:91-181`) -/

/-- The placement kinds of an endpoint parameter (the tagged union the
binder switches over). -/
inductive ParamKind where
  | Path | Query | Body | Header
deriving DecidableEq, Repr

/-- One parameter of a generated endpoint: name, placement kind and the
optional zod schema, modelled by its `safeParse` success predicate. -/
structure ParameterDef where
  name : String
  type : ParamKind
  schema : Option (Json → Bool)

/-- A generated endpoint (`api.endpoints` entry): tool alias, path
template, HTTP method, parameter definitions and the error descriptions
used for media-content detection. -/
structure ToolDef where
  «alias» : String
  path : String
  method : String
  parameters : List ParameterDef
  errors : List String

/-- One `endpoints.json` record (the fields the dispatcher reads). -/
structure EndpointConfig where
  toolName : String
  scopes : Option (List String)
  workScopes : Option (List String)
  returnDownloadUrl : Bool
  supportsTimezone : Bool

/-- The reserved control keys never forwarded to the remote service. -/
def controlParams : List String :=
  ["fetchAllPages", "includeHeaders", "excludeResponse", "timezone"]

/-- The nine reserved OData query names. -/
def odataParams : List String :=
  ["filter", "select", "expand", "orderby", "skip", "top", "count",
    "search", "format"]

/-- The request shape accumulated by the binding loop. -/
structure BoundRequest where
  path : String
  queryParams : List (String × String)
  headers : List (String × String)
  body : Option Json

/-- The `Body` case of the binder: validate against the schema, attempt
the single wrap-in-an-object auto-correction, else fall through with the
raw value. -/
def bindBodyValue (p : ParameterDef) (paramName : String) (v : Json) : Json :=
  match p.schema with
  | some ok =>
      if ok v then v
      else
        let wrapped := Json.obj [(paramName, v)]
        if ok wrapped then wrapped else v
  | none => v

/-- One iteration of the `for (const [paramName, paramValue] of
Object.entries(params))` loop: control-key skip, OData normalization,
descriptor lookup and the placement-kind switch. -/
def bindStep (defs : List ParameterDef) (acc : BoundRequest)
    (kv : String × Json) : BoundRequest :=
  let paramName := kv.1
  let paramValue := kv.2
  if controlParams.contains paramName then acc
  else
    let normalized :=
      if strStartsWith paramName "$" then strDrop paramName 1 else paramName
    let isOdata := odataParams.contains (strLower normalized)
    let fixedName :=
      if isOdata then "$" ++ strLower normalized else paramName
    match defs.find?
        (fun p => p.name == paramName || (isOdata && p.name == normalized)) with
    | some p =>
        match p.type with
        | .Path =>
            let enc := encodeURIComponent (jsToString paramValue)
            { acc with path :=
                (strReplaceFirst
                  (strReplaceFirst acc.path ("\x7b" ++ paramName ++ "\x7d") enc)
                  (":" ++ paramName) enc) }
        | .Query =>
            { acc with queryParams :=
                strMapSet acc.queryParams fixedName (jsToString paramValue) }
        | .Body => { acc with body := some (bindBodyValue p paramName paramValue) }
        | .Header =>
            { acc with headers :=
                strMapSet acc.headers fixedName (jsToString paramValue) }
    | none =>
        if paramName == "body" then { acc with body := some paramValue }
        else acc

/-- The whole binding loop over the supplied parameter entries. -/
def bindParams (tool : ToolDef) (params : List (String × Json)) :
    BoundRequest :=
  params.foldl (bindStep tool.parameters) ⟨tool.path, [], [], none⟩

/-- Field lookup in the raw parameter map (`params.foo`). -/
def paramsGet (params : List (String × Json)) (k : String) : Option Json :=
  (params.find? (fun p => p.1 == k)).map (·.2)

/-! ## URL parsing for continuation cursors -/

/-- Value of a hexadecimal digit. -/
def hexVal (c : Char) : Option Nat :=
  if '0' ≤ c && c ≤ '9' then some (c.toNat - '0'.toNat)
  else if 'A' ≤ c && c ≤ 'F' then some (c.toNat - 'A'.toNat + 10)
  else if 'a' ≤ c && c ≤ 'f' then some (c.toNat - 'a'.toNat + 10)
  else none

/-- Percent/plus decoding of a query component (single-byte model,
faithful for the ASCII cursors the service emits). -/
def pctDecode : List Char → List Char
  | [] => []
  | '+' :: rest => ' ' :: pctDecode rest
  | '%' :: a :: b :: rest =>
      match hexVal a, hexVal b with
      | some ha, some hb => Char.ofNat (16 * ha + hb) :: pctDecode rest
      | _, _ => '%' :: pctDecode (a :: b :: rest)
  | c :: rest => c :: pctDecode rest

/-- `URLSearchParams` entries of a raw query string (no leading `?`):
split on `&`, key before the first `=`, both sides decoded. -/
def queryEntries (q : String) : List (String × String) :=
  (strSplitOnChar q '&').filterMap fun pair =>
    if pair == "" then none
    else
      match strSplitOnChar pair '=' with
      | [] => none
      | k :: rest =>
          some ((pctDecode k.toList).asString,
            (pctDecode (strIntercalate "=" rest).toList).asString)

/-- Entries of a `url.search` value (leading `?` or empty). -/
def searchEntries (search : String) : List (String × String) :=
  if strStartsWith search "?" then queryEntries (strDrop search 1) else []

/-- WHATWG `new URL` on an absolute http(s) URL, reduced to the two
pieces the code reads: `pathname` and `search` (with its leading `?`,
empty when there is no query).  Any other shape models the constructor
throwing. -/
def urlParse (u : String) : Option (String × String) :=
  let parseRest (rest : List Char) : String × String :=
    let afterHost := rest.dropWhile (fun c => c ≠ '/' && c ≠ '?')
    let pathC := afterHost.takeWhile (fun c => c ≠ '?')
    let searchC := afterHost.dropWhile (fun c => c ≠ '?')
    (if pathC.isEmpty then "/" else pathC.asString, searchC.asString)
  if strStartsWith u "https://" then some (parseRest (u.toList.drop 8))
  else if strStartsWith u "http://" then some (parseRest (u.toList.drop 7))
  else none

/-! ## The `fetchAllPages` aggregation loop (`src/graph-tools.ts:226-278`) -/

/-- The `value` array of a decoded page, `[]` when absent.  A truthy
non-array `value` (never produced by the service) is outside the modelled
domain. -/
def pageItems (j : Json) : List Json :=
  match j.getField "value" with
  | some (.arr xs) => xs
  | _ => []

/-- The `while (nextLink && pageCount < 100)` loop.  `fuel` is
`100 - pageCount`; `none` models an exception inside the `try` (an
invalid cursor URL), which makes the handler keep the original response.
Cursor requests run through `graphRequest` with the cursor's query stored
in `options.queryParams`. -/
def fetchPagesLoop (options : GraphRequestOptions) (authTok : Option String)
    (server : Nat → GraphHttpRequest → HttpResponse)
    (clientSecret : Option String)
    (refreshCall : String → Option RefreshTokenResponse) :
    Nat → GraphClientState → List Json → Option Json →
      List GraphHttpRequest →
      Option (List Json × GraphClientState × List GraphHttpRequest)
  | fuel, st, items, nextLink, trace =>
    match nextLink with
    | none => some (items, st, trace)
    | some nl =>
        if !nl.truthy then some (items, st, trace)
        else
          match fuel with
          | 0 => some (items, st, trace)
          | fuel' + 1 =>
              match nl with
              | .str s =>
                  match urlParse s with
                  | none => none
                  | some (pathname, search) =>
                      let nextPath := strReplaceFirst pathname "/v1.0" ""
                      let nextOptions :=
                        { options with queryParams := some (searchEntries search) }
                      let (resp2, st2, tr2) := graphRequest nextPath nextOptions
                        st authTok server clientSecret refreshCall
                      let nj := resp2.structured
                      fetchPagesLoop options authTok server clientSecret
                        refreshCall fuel' st2 (items ++ pageItems nj)
                        (nj.getField "@odata.nextLink") (trace ++ tr2)
              | _ => none

/-- The completion step of the aggregation: write the accumulated items
back, rewrite a truthy `@odata.count`, and drop the cursor field. -/
def finishAggregation (combined : Json) (items : List Json) : Json :=
  match combined with
  | .obj fs =>
      let fs1 := objSet fs "value" (.arr items)
      let fs2 :=
        match combined.getField "@odata.count" with
        | some c => if c.truthy then objSet fs1 "@odata.count" (.num items.length)
            else fs1
        | none => fs1
      .obj (objDelete fs2 "@odata.nextLink")
  | j => j

/-! ## `executeGraphTool` end to end -/

/-- The result of one tool invocation: the JSON the single text content
item stringifies, the `_meta` side channel, the error flag, every HTTP
request performed, and the client state left behind. -/
structure ToolOut where
  resultJson : Json
  meta : Option MetaOut
  isError : Bool
  trace : List GraphHttpRequest
  state : GraphClientState
deriving Repr

/-- `executeGraphTool`: bind parameters, append the query string, pick
raw/download modes, run `graphRequest`, then optionally aggregate pages. -/
def executeGraphTool (tool : ToolDef) (config : Option EndpointConfig)
    (params : List (String × Json)) (st : GraphClientState)
    (authTok : Option String)
    (server : Nat → GraphHttpRequest → HttpResponse)
    (clientSecret : Option String)
    (refreshCall : String → Option RefreshTokenResponse) : ToolOut :=
  let bound := bindParams tool params
  let headers :=
    match config with
    | some cfg =>
        if cfg.supportsTimezone
            && ((paramsGet params "timezone").map Json.truthy |>.getD false) then
          strMapSet bound.headers "Prefer"
            ("outlook.timezone=\"" ++
              jsToString ((paramsGet params "timezone").getD .null) ++ "\"")
        else bound.headers
    | none => bound.headers
  let path0 := bound.path
  let path1 :=
    if bound.queryParams.isEmpty then path0
    else
      let queryString := strIntercalate "&"
        (bound.queryParams.map fun p =>
          encodeURIComponent p.1 ++ "=" ++ encodeURIComponent p.2)
      path0 ++ (if strContainsSub path0 "?" then "&" else "?") ++ queryString
  let methodUp := strUpper tool.method
  let bodyStr : Option String :=
    if methodUp != "GET"
        && ((bound.body.map Json.truthy).getD false) then
      some (match bound.body.getD .null with
        | .str s => s
        | j => j.stringify)
    else none
  let isProbablyMediaContent :=
    tool.errors.contains "Retrieved media content" || strEndsWith path1 "/content"
  let returnDownloadUrl := (config.map (·.returnDownloadUrl)).getD false
  let path2 :=
    if returnDownloadUrl && strEndsWith path1 "/content" then strDropRight path1 8
    else path1
  let rawResponse :=
    if returnDownloadUrl && strEndsWith path1 "/content" then false
    else isProbablyMediaContent
  let includeHeaders := paramsGet params "includeHeaders" == some (.bool true)
  let excludeResponse := paramsGet params "excludeResponse" == some (.bool true)
  let options : GraphRequestOptions :=
    { headers := headers, method := some methodUp, body := bodyStr
      rawResponse := rawResponse, includeHeaders := includeHeaders
      excludeResponse := excludeResponse, accessToken := none
      refreshToken := none, queryParams := none }
  let (resp, st1, tr1) := graphRequest path2 options st authTok server
    clientSecret refreshCall
  let fetchAllPages := paramsGet params "fetchAllPages" == some (.bool true)
  if fetchAllPages then
    let combined := resp.structured
    match fetchPagesLoop options authTok server clientSecret refreshCall 99
        st1 (pageItems combined) (combined.getField "@odata.nextLink") [] with
    | none =>
        { resultJson := resp.structured, meta := resp.meta
          isError := resp.isError, trace := tr1, state := st1 }
    | some (allItems, st2, tr2) =>
        { resultJson := finishAggregation combined allItems
          meta := resp.meta, isError := resp.isError, trace := tr1 ++ tr2
          state := st2 }
  else
    { resultJson := resp.structured, meta := resp.meta
      isError := resp.isError, trace := tr1, state := st1 }

/-! ## The SharePoint tree collector (`src/graph-tools.ts:469-629`)

The remote drive hierarchy is modelled as a tree of items; a folder's
child list is what `listDriveItemChildren` (which follows every child
cursor internally) returns for it.  The optional metadata copied onto
each node (webUrl, size, mimeType, timestamps) is orthogonal to every
claim and elided. -/

/-- One remote drive item: a file, or a folder with its children. -/
inductive Item where
  | file : String → String → Item
  | folder : String → String → List Item → Item

mutual

/-- Boolean equality on items. -/
def Item.beq : Item → Item → Bool
  | .file i n, .file j m => i == j && n == m
  | .folder i n cs, .folder j m ds => i == j && n == m && Item.beqList cs ds
  | _, _ => false

/-- Boolean equality on item lists. -/
def Item.beqList : List Item → List Item → Bool
  | [], [] => true
  | a :: as, b :: bs => Item.beq a b && Item.beqList as bs
  | _, _ => false

end

mutual

theorem itemBeq_iff : ∀ a b : Item, Item.beq a b = true ↔ a = b
  | .file i n, b => by cases b <;> simp [Item.beq]
  | .folder i n cs, b => by
      cases b with
      | file j m => simp [Item.beq]
      | folder j m ds =>
          simp [Item.beq, itemBeqList_iff cs ds, and_assoc]

theorem itemBeqList_iff : ∀ a b : List Item, Item.beqList a b = true ↔ a = b
  | [], b => by cases b <;> simp [Item.beqList]
  | x :: xs, b => by
      cases b with
      | nil => simp [Item.beqList]
      | cons y ys =>
          simp [Item.beqList, itemBeq_iff x y, itemBeqList_iff xs ys]

end

instance : DecidableEq Item := fun a b =>
  decidable_of_iff (Item.beq a b = true) (itemBeq_iff a b)

/-- The item id. -/
def Item.id : Item → String
  | .file i _ => i
  | .folder i _ _ => i

/-- The item name. -/
def Item.name : Item → String
  | .file _ n => n
  | .folder _ n _ => n

/-- `!!item.folder`. -/
def Item.isFolder : Item → Bool
  | .file _ _ => false
  | .folder _ _ _ => true

/-- One entry of the collector's result (`SharePointFileNode`):
`children` is populated in tree mode only. -/
inductive FileNode where
  | mk : String → String → String → String → String → Bool →
      Option (List FileNode) → FileNode

mutual

/-- Boolean equality on result nodes. -/
def FileNode.beq : FileNode → FileNode → Bool
  | .mk s d i n p f c, .mk s' d' i' n' p' f' c' =>
      s == s' && d == d' && i == i' && n == n' && p == p' && f == f'
        && FileNode.beqOpt c c'

/-- Boolean equality on node lists. -/
def FileNode.beqList : List FileNode → List FileNode → Bool
  | [], [] => true
  | a :: as, b :: bs => FileNode.beq a b && FileNode.beqList as bs
  | _, _ => false

/-- Boolean equality on optional node lists. -/
def FileNode.beqOpt : Option (List FileNode) → Option (List FileNode) → Bool
  | none, none => true
  | some a, some b => FileNode.beqList a b
  | _, _ => false

end

mutual

theorem fileNodeBeq_iff : ∀ a b : FileNode, FileNode.beq a b = true ↔ a = b
  | .mk s d i n p f c, .mk s' d' i' n' p' f' c' => by
      simp [FileNode.beq, fileNodeBeqOpt_iff c c', and_assoc]

theorem fileNodeBeqList_iff : ∀ a b : List FileNode,
    FileNode.beqList a b = true ↔ a = b
  | [], b => by cases b <;> simp [FileNode.beqList]
  | x :: xs, b => by
      cases b with
      | nil => simp [FileNode.beqList]
      | cons y ys =>
          simp [FileNode.beqList, fileNodeBeq_iff x y,
            fileNodeBeqList_iff xs ys]

theorem fileNodeBeqOpt_iff : ∀ a b : Option (List FileNode),
    FileNode.beqOpt a b = true ↔ a = b
  | none, b => by cases b <;> simp [FileNode.beqOpt]
  | some xs, b => by
      cases b <;> simp [FileNode.beqOpt]
      exact fileNodeBeqList_iff xs _

end

instance : DecidableEq FileNode := fun a b =>
  decidable_of_iff (FileNode.beq a b = true) (fileNodeBeq_iff a b)

/-- The owning site id. -/
def FileNode.siteId : FileNode → String
  | .mk s _ _ _ _ _ _ => s

/-- The owning drive id. -/
def FileNode.driveId : FileNode → String
  | .mk _ d _ _ _ _ _ => d

/-- The drive item id. -/
def FileNode.driveItemId : FileNode → String
  | .mk _ _ i _ _ _ _ => i

/-- The node name. -/
def FileNode.name : FileNode → String
  | .mk _ _ _ n _ _ _ => n

/-- The slash-joined logical path. -/
def FileNode.path : FileNode → String
  | .mk _ _ _ _ p _ _ => p

/-- The folder flag. -/
def FileNode.isFolder : FileNode → Bool
  | .mk _ _ _ _ _ f _ => f

/-- The attached child list (tree mode). -/
def FileNode.children : FileNode → Option (List FileNode)
  | .mk _ _ _ _ _ _ c => c

/-- Case-insensitive glob matching (`*` wildcard, everything else
literal), the semantics of the anchored case-insensitive regex the code
builds from the escaped, lowered filter. Both sides are compared
lowered. -/
def globMatch : List Char → List Char → Bool
  | [], [] => true
  | [], _ :: _ => false
  | '*' :: p, [] => globMatch p []
  | '*' :: p, c :: n => globMatch p (c :: n) || globMatch ('*' :: p) n
  | _ :: _, [] => false
  | c :: p, d :: n => c == d && globMatch p n
termination_by p n => (p.length, n.length)

/-- `matchesFilter`: empty filter accepts everything, empty name is
rejected, `*.ext` compares the suffix, a `*` pattern globs, anything
else is a case-insensitive substring test. -/
def matchesFilter (name : String) (filter : Option String) : Bool :=
  match filter with
  | none => true
  | some f =>
      if f == "" then true
      else if name == "" then false
      else
        let loweredName := strLower name
        let loweredFilter := strLower f
        if strStartsWith loweredFilter "*." && loweredFilter.toList.length > 2 then
          strEndsWith loweredName (strDrop loweredFilter 1)
        else if loweredFilter.toList.contains '*' then
          globMatch loweredFilter.toList loweredName.toList
        else listContainsSub loweredFilter.toList loweredName.toList

/-- The resolved document-library identity (`SharePointDriveInfo`). -/
structure SharePointDriveInfo where
  driveId : String
  driveName : String
  rootItemId : String
deriving DecidableEq, Repr

/-- The hard depth ceiling of the collector. -/
def SAFE_MAX_DEPTH : Nat := 20

/-- `Math.min(maxDepth, SAFE_MAX_DEPTH)` with the `maxDepth = 10`
default. -/
def effectiveMaxDepth (maxDepth : Option Nat) : Nat :=
  min (maxDepth.getD 10) SAFE_MAX_DEPTH

/-- `currentPath.split('/').pop() || ''`. -/
def lastSegment (p : String) : String :=
  ((strSplitOnChar p '/').getLast?).getD ""

/-- The child path: `currentPath === '/' ? '/' + name
: currentPath + '/' + name`. -/
def childPathOf (currentPath name : String) : String :=
  if currentPath == "/" then "/" ++ name else currentPath ++ "/" ++ name

/-- What one `walk` call over a child list produces: the flat emissions,
the `childNodes` array, the truncation flag contribution, and — as proof
instrumentation — the (folder id, walk depth) of every recursive `walk`
performed below this child list. -/
structure ItemsOut where
  flat : List FileNode
  children : List FileNode
  truncated : Bool
  walked : List (String × Nat)

/-- The `baseNode` built for an encountered child. -/
def mkBaseNode (siteId driveId : String) (item : Item) (childPath : String) :
    FileNode :=
  .mk siteId driveId item.id item.name childPath item.isFolder none

/-- The flat-mode emission of one encountered child (filter applied to
files always, to folders only with `includeFolders`). -/
def emitChild (incl : Bool) (filter : Option String)
    (siteId driveId : String) (item : Item) (childPath : String) :
    List FileNode :=
  if !item.isFolder && matchesFilter item.name filter then
    [mkBaseNode siteId driveId item childPath]
  else if item.isFolder && (incl && matchesFilter item.name filter) then
    [mkBaseNode siteId driveId item childPath]
  else []

/-- The node a recursive `walk` call builds for the folder it walks. -/
def mkWalkNode (siteId driveId driveName folderId : String)
    (currentPath : String) (depth : Nat) (treeMode : Bool)
    (childNodes : List FileNode) : FileNode :=
  .mk siteId driveId folderId
    (if depth == 0 then driveName else lastSegment currentPath)
    (if currentPath == "" then "/" else currentPath) true
    (if treeMode then some childNodes else none)

/-- The child loop of `walk`: per child, flat emission, then recursion
into folders while the depth is below the ceiling (setting `truncated`
at the ceiling), plus tree-mode attachment of leaves. -/
def walkItems (treeMode incl : Bool) (filter : Option String) (m : Nat)
    (siteId driveId driveName : String) :
    List Item → String → Nat → ItemsOut
  | [], _, _ => ⟨[], [], false, []⟩
  | item :: rest, currentPath, depth =>
    let childPath := childPathOf currentPath item.name
    let emit := emitChild incl filter siteId driveId item childPath
    match item with
    | .file _ _ =>
        let restOut := walkItems treeMode incl filter m siteId driveId
          driveName rest currentPath depth
        ⟨emit ++ restOut.flat,
          (if treeMode then [mkBaseNode siteId driveId item childPath]
            else []) ++ restOut.children,
          restOut.truncated, restOut.walked⟩
    | .folder fid _ cs =>
        if depth < m then
          let sub := walkItems treeMode incl filter m siteId driveId
            driveName cs childPath (depth + 1)
          let node := mkWalkNode siteId driveId driveName fid childPath
            (depth + 1) treeMode sub.children
          let restOut := walkItems treeMode incl filter m siteId driveId
            driveName rest currentPath depth
          ⟨emit ++ sub.flat ++ restOut.flat, node :: restOut.children,
            sub.truncated || restOut.truncated,
            (fid, depth + 1) :: sub.walked ++ restOut.walked⟩
        else
          let restOut := walkItems treeMode incl filter m siteId driveId
            driveName rest currentPath depth
          ⟨emit ++ restOut.flat, restOut.children, true, restOut.walked⟩

/-- What `collectSharePointFiles` returns: the flat item list (the
result in flat mode), the root node (the result in tree mode), the
truncation flag and the walk instrumentation. -/
structure CollectOut where
  items : List FileNode
  root : FileNode
  truncated : Bool
  walked : List (String × Nat)

/-- `collectSharePointFiles` after drive resolution: clamp the depth,
walk the root at depth 0 and path `/`, and package the per-mode result. -/
def collectSharePointFiles (treeMode incl : Bool) (filter : Option String)
    (maxDepth : Option Nat) (siteId : String) (drive : SharePointDriveInfo)
    (rootChildren : List Item) : CollectOut :=
  let m := effectiveMaxDepth maxDepth
  let sub := walkItems treeMode incl filter m siteId drive.driveId
    drive.driveName rootChildren "/" 0
  { items := sub.flat
    root := mkWalkNode siteId drive.driveId drive.driveName drive.rootItemId
      "/" 0 treeMode sub.children
    truncated := sub.truncated
    walked := (drive.rootItemId, 0) :: sub.walked }

/-! ## Tool registration (`registerGraphTools`, `src/graph-tools.ts:631-988`) -/

/-- Whether the catalog loop registers a tool: the work-scope skip
outside org mode, the read-only skip of non-GET methods, and the name
pattern (an already-compiled predicate; an invalid pattern is dropped
and modelled as `none`). -/
def toolVisible (endpointsData : List EndpointConfig)
    (readOnly orgMode : Bool) (pat : Option (String → Bool))
    (tool : ToolDef) : Bool :=
  let config := endpointsData.find? (fun e => e.toolName == tool.alias)
  let skipWork :=
    !orgMode &&
      (match config with
       | some c => c.scopes.isNone && c.workScopes.isSome
       | none => false)
  let skipReadOnly := readOnly && strUpper tool.method != "GET"
  let skipPattern :=
    match pat with
    | some ok => !ok tool.alias
    | none => false
  !skipWork && !skipReadOnly && !skipPattern

/-- The catalog-derived registrations of `registerGraphTools`. -/
def registeredCatalogTools (endpoints : List ToolDef)
    (endpointsData : List EndpointConfig) (readOnly orgMode : Bool)
    (pat : Option (String → Bool)) : List String :=
  (endpoints.filter (toolVisible endpointsData readOnly orgMode pat)).map
    (·.alias)

/-- Every tool name `registerGraphTools` registers: the filtered catalog,
then — unconditionally, outside every mode guard — the two custom tools. -/
def registerGraphTools (endpoints : List ToolDef)
    (endpointsData : List EndpointConfig) (readOnly : Bool)
    (pat : Option (String → Bool)) (orgMode : Bool) : List String :=
  registeredCatalogTools endpoints endpointsData readOnly orgMode pat ++
    ["list-sharepoint-site-files", "download-file-to-local"]

/-! ## Spec-side characterizations used to state the claims -/

/-- Every folder of the hierarchy together with its tree depth (children
of the root have depth 1), in the preorder the traversal visits them. -/
def allFolderDepths : List Item → Nat → List (String × Nat)
  | [], _ => []
  | .file _ _ :: rest, d => allFolderDepths rest d
  | .folder i _ cs :: rest, d =>
      (i, d + 1) :: (allFolderDepths cs (d + 1) ++ allFolderDepths rest d)

/-- Whether the hierarchy contains a folder at depth strictly greater
than `k` (children counting as depth 1). -/
def hasFolderBeyond : Nat → List Item → Bool
  | _, [] => false
  | k, .file _ _ :: rest => hasFolderBeyond k rest
  | 0, .folder _ _ _ :: _ => true
  | k + 1, .folder _ _ cs :: rest =>
      hasFolderBeyond k cs || hasFolderBeyond (k + 1) rest

/-- The nodes of every child the traversal encounters (children of walked
folders, including folders met at the ceiling), in visit order. -/
def visitedNodes (m : Nat) (siteId driveId : String) :
    List Item → String → Nat → List FileNode
  | [], _, _ => []
  | item :: rest, path, d =>
      let cp := childPathOf path item.name
      mkBaseNode siteId driveId item cp ::
        ((match item with
          | .folder _ _ cs =>
              if d < m then visitedNodes m siteId driveId cs cp (d + 1) else []
          | .file _ _ => []) ++ visitedNodes m siteId driveId rest path d)

/-- The flat-mode emission predicate: the filter applies to files always
and to folders only when `includeFolders` is on. -/
def emitPred (incl : Bool) (f : Option String) (n : FileNode) : Bool :=
  if n.isFolder then incl && matchesFilter n.name f
  else matchesFilter n.name f

mutual

/-- The leaf nodes reachable through the `children` lists of an output
node (empty when no `children` list is attached). -/
def treeLeaves : FileNode → List FileNode
  | .mk _ _ _ _ _ _ none => []
  | .mk _ _ _ _ _ _ (some cs) => treeLeavesList cs

/-- Leaves of a `children` list: leaves recurse through folders and keep
files. -/
def treeLeavesList : List FileNode → List FileNode
  | [] => []
  | c :: rest => (if c.isFolder then treeLeaves c else [c]) ++ treeLeavesList rest

end

/-! ## Concrete scenarios used by counterexamples and witnesses -/

/-- First page of the pagination scenario: two items, a count, a cursor. -/
def scenarioPage1 : Json :=
  .obj [("value", .arr [.num 1, .num 2]), ("@odata.count", .num 5),
    ("@odata.nextLink",
      .str "https://graph.microsoft.com/v1.0/items?$skiptoken=t2")]

/-- A server that answers every request with the first page. -/
def scenarioServer : Nat → GraphHttpRequest → HttpResponse :=
  fun _ _ => ⟨200, .json scenarioPage1, none⟩

/-- A GET collection endpoint with no declared parameters. -/
def scenarioTool : ToolDef := ⟨"list-items", "/items", "get", [], []⟩

/-- A client session holding a valid access token and no refresh token. -/
def scenarioState : GraphClientState := ⟨some "tok", none⟩

/-- A refresh collaborator that always fails (never reached in the
pagination scenario). -/
def noRefresh : String → Option RefreshTokenResponse := fun _ => none

/-- A server answering 200 with a small object body and an ETag header. -/
def etagServer : Nat → GraphHttpRequest → HttpResponse :=
  fun _ _ => ⟨200, .json (.obj [("a", .num 1)]), some "W/x"⟩

/-- An endpoint with the same path parameter appearing twice in the
template. -/
def dupPathTool : ToolDef :=
  ⟨"copy-item", "/items/\x7bid\x7d/copies/\x7bid\x7d", "post",
    [⟨"id", .Path, none⟩], []⟩

/-- A GET endpoint declaring the unprefixed reserved query name `top`. -/
def topQueryTool : ToolDef :=
  ⟨"list", "/items", "get", [⟨"top", .Query, none⟩], []⟩

/-- The server of the refresh scenario: 401 for the stale token `t1`,
200 otherwise. -/
def refreshScenarioServer : Nat → GraphHttpRequest → HttpResponse :=
  fun _ r =>
    if r.tokenArg == "t1" then ⟨401, .nonJson "token expired", none⟩
    else ⟨200, .json (.obj [("ok", .bool true)]), none⟩

/-- The refresh collaborator of the refresh scenario. -/
def refreshScenarioCall : String → Option RefreshTokenResponse :=
  fun _ => some ⟨"t2", some "r2"⟩

/-! ## Claims -/

/-- C1.  The claim states that every `localPath` resolving outside the
configured base download directory is rejected with no filesystem write.
The code instead guards with a plain string-prefix test
(`targetPath.startsWith(resolvedBase)`), so a sibling directory whose
name extends the base's name passes the guard: with base
`/srv/downloads`, the local path `../downloads-evil/x` resolves to
`/srv/downloads-evil/x`, which escapes the base directory yet is
accepted, and the handler creates the directory and writes the file.
The specific `../../etc/passwd` probe of the claim is rejected for any
`overwrite` value. -/
theorem c1_traversal_guard_accepts_escaping_sibling :
    (escapesBaseDir "/srv/downloads"
        (resolvePath "/srv/downloads" "../downloads-evil/x") = true
      ∧ downloadFileToLocal "/srv/downloads" "../downloads-evil/x" true
          (fun _ => false) true
        = (.written "/srv/downloads-evil/x",
            [.mkdir "/srv/downloads-evil", .write "/srv/downloads-evil/x"]))
    ∧ (∀ ow : Bool,
        downloadFileToLocal "/srv/downloads" "../../etc/passwd" ow
            (fun _ => false) true
          = (.rejectedTraversal, [])) := by
  refine ⟨⟨by decide, by decide⟩, fun ow => ?_⟩
  cases ow <;> decide

/-- C3.  The claim states that each continuation-cursor follow-up request
carries exactly the query string of the cursor URL.  In the code,
(a) `performRequest` builds the fetched URL from the endpoint alone and
never reads `options.queryParams`, where the aggregation loop stores the
cursor's query, and (b) the loop itself never runs on the normal path,
because the response normalizer strips `@odata.nextLink` before the loop
parses the text: on a first page carrying a cursor, exactly one HTTP
request is performed. -/
theorem c3_cursor_query_discarded :
    (∀ (endpoint tok : String) (opts : GraphRequestOptions),
      (performRequest endpoint tok opts).url
        = "https://graph.microsoft.com/v1.0" ++ endpoint)
    ∧ (executeGraphTool scenarioTool none [("fetchAllPages", .bool true)]
          scenarioState none scenarioServer none noRefresh).trace.map (·.url)
        = ["https://graph.microsoft.com/v1.0/items"] := by
  exact ⟨fun endpoint tok opts => rfl, by decide⟩

/-- C4.  The claim states that explicitly-requested aggregation of N
pages yields all `s1+...+sN` items, and that without the request a
single page is returned with its cursor intact.  In the code the
response normalizer deletes every `@odata.*` key (cursor and count
included) before the aggregation loop reads the text, so with
`fetchAllPages` only the first page's items are returned after a single
request — here 2 items although the server holds pages of sizes 2 and
3 — and without `fetchAllPages` the returned page has lost its cursor. -/
theorem c4_aggregation_never_fetches :
    (executeGraphTool scenarioTool none [("fetchAllPages", .bool true)]
        scenarioState none scenarioServer none noRefresh).resultJson
      = .obj [("value", .arr [.num 1, .num 2])]
    ∧ (executeGraphTool scenarioTool none [("fetchAllPages", .bool true)]
        scenarioState none scenarioServer none noRefresh).trace.length = 1
    ∧ (executeGraphTool scenarioTool none [] scenarioState none
        scenarioServer none noRefresh).resultJson.hasField "@odata.nextLink"
      = false := by
  exact ⟨by decide, by decide, by decide⟩

/-- A 401 response is mapped to a generic fatal upstream error by the
shared status handling. -/
theorem handleFinalResponse_401 (resp : HttpResponse) (ih : Bool)
    (h : resp.status = 401) :
    handleFinalResponse resp ih = .error (.apiError 401 resp.bodyText) := by
  have h403 : (resp.status == 403) = false := by simp [h]
  have hok : resp.ok = false := by simp [HttpResponse.ok, h]
  simp [handleFinalResponse, h403, hok, h]

/-- Whether a request result is a success. -/
def isOkResult : Except GraphError Json → Bool
  | .ok _ => true
  | .error _ => false

/-- A 2xx response is mapped to a success result by the shared status
handling. -/
theorem handleFinalResponse_ok (resp : HttpResponse) (ih : Bool)
    (h : resp.ok = true) :
    isOkResult (handleFinalResponse resp ih) = true := by
  obtain ⟨st, bt, et⟩ := resp
  simp only [HttpResponse.ok, Bool.and_eq_true, decide_eq_true_eq] at h
  have h403 : (st == 403) = false := by
    simp only [beq_eq_false_iff_ne]
    omega
  have hokT : (HttpResponse.mk st bt et).ok = true := by
    simp only [HttpResponse.ok, Bool.and_eq_true, decide_eq_true_eq]
    omega
  cases bt with
  | empty => cases ih <;> simp [handleFinalResponse, h403, hokT, isOkResult]
  | nonJson s => cases ih <;> simp [handleFinalResponse, h403, hokT, isOkResult]
  | json j =>
      cases ih with
      | false => simp [handleFinalResponse, h403, hokT, isOkResult]
      | true =>
          cases j <;> simp [handleFinalResponse, h403, hokT, isOkResult]

/-- C2.  With a held access token and refresh token, a 401 from the
first attempt triggers exactly one refresh call, the held access token
(and, when the refresh response carries a non-empty one, the refresh
token) is replaced, and the original request is retried exactly once
with the new token; a second 401 on the retry is surfaced as a fatal
upstream error with no further attempt, while a 2xx retry succeeds.
Without a held refresh token, the 401 is surfaced directly and no
refresh is attempted. -/
theorem c2_single_refresh_and_retry
    (endpoint : String) (opts : GraphRequestOptions)
    (authTok : Option String) (server : Nat → GraphHttpRequest → HttpResponse)
    (cs : String) (refreshCall : String → Option RefreshTokenResponse)
    (a rt a2 : String) (rt2 : Option String)
    (ha : a ≠ "") (hrt : rt ≠ "") (hcs : cs ≠ "") (ha2 : a2 ≠ "")
    (hoa : opts.accessToken = none) (hor : opts.refreshToken = none)
    (h401 : (server 0 (performRequest endpoint a opts)).status = 401)
    (hrc : refreshCall rt = some ⟨a2, rt2⟩) :
    (let out := makeRequest endpoint opts ⟨some a, some rt⟩ authTok server
      (some cs) refreshCall
     out.refreshes = 1
     ∧ out.attempts
        = [performRequest endpoint a opts, performRequest endpoint a2 opts]
     ∧ out.state.accessToken = some a2
     ∧ (∀ s, rt2 = some s → s ≠ "" → out.state.refreshToken = some s)
     ∧ (rt2 = none → out.state.refreshToken = some rt)
     ∧ ((server 1 (performRequest endpoint a2 opts)).status = 401 →
         out.result = .error (.apiError 401
           (server 1 (performRequest endpoint a2 opts)).bodyText))
     ∧ ((server 1 (performRequest endpoint a2 opts)).ok = true →
         isOkResult out.result = true))
    ∧ (let out := makeRequest endpoint opts ⟨some a, none⟩ authTok server
        (some cs) refreshCall
       out.refreshes = 0
       ∧ out.attempts = [performRequest endpoint a opts]
       ∧ out.result = .error (.apiError 401
           (server 0 (performRequest endpoint a opts)).bodyText)) := by
  have haf : (a == "") = false := by simp [ha]
  have hrtf : (rt != "") = true := by simp [hrt]
  have hcsf : (cs != "") = true := by simp [hcs]
  have ha2f : (a2 == "") = false := by simp [ha2]
  constructor
  · have hbranch :
        makeRequest endpoint opts ⟨some a, some rt⟩ authTok server (some cs)
            refreshCall
          = { result := handleFinalResponse
                (server 1 (performRequest endpoint a2 opts))
                opts.includeHeaders
              state := { accessToken := some a2
                         refreshToken :=
                           match rt2 with
                           | some s => if s != "" then some s else some rt
                           | none => some rt }
              attempts := [performRequest endpoint a opts,
                performRequest endpoint a2 opts]
              refreshes := 1 } := by
      simp [makeRequest, jsOrStr, strTruthy, hoa, hor, ha, hrt, hcs, ha2,
        refreshAccessTokenStep, hrc, h401]
      cases rt2 <;> simp
    refine ⟨by simp [hbranch], by simp [hbranch], by simp [hbranch],
      ?_, ?_, ?_, ?_⟩
    · intro s hs hsne
      subst hs
      simp [hbranch, hsne]
    · intro hn
      subst hn
      simp [hbranch]
    · intro h401b
      simp [hbranch, handleFinalResponse_401 _ _ h401b]
    · intro hok
      have hj := handleFinalResponse_ok
        (server 1 (performRequest endpoint a2 opts)) opts.includeHeaders hok
      simp [hbranch, hj]
  · have hbranch :
        makeRequest endpoint opts ⟨some a, none⟩ authTok server (some cs)
            refreshCall
          = { result := handleFinalResponse
                (server 0 (performRequest endpoint a opts))
                opts.includeHeaders
              state := ⟨some a, none⟩
              attempts := [performRequest endpoint a opts]
              refreshes := 0 } := by
      simp [makeRequest, jsOrStr, strTruthy, hoa, hor, ha]
    refine ⟨by simp [hbranch], by simp [hbranch], ?_⟩
    simp [hbranch, handleFinalResponse_401 _ _ h401]

/-- C2 witness: the concrete refresh scenario — stale token `t1`,
refresh token `r1`, refresh yields `t2`/`r2` — performs one refresh,
retries with `t2`, installs both new tokens; and without a refresh token
it fails after a single attempt. -/
theorem c2_witness :
    (let out := makeRequest "/me" noOptions ⟨some "t1", some "r1"⟩ none
      refreshScenarioServer (some "sec") refreshScenarioCall
     out.refreshes = 1
     ∧ out.attempts = [performRequest "/me" "t1" noOptions,
        performRequest "/me" "t2" noOptions]
     ∧ out.state.accessToken = some "t2"
     ∧ out.state.refreshToken = some "r2"
     ∧ isOkResult out.result = true)
    ∧ (let out := makeRequest "/me" noOptions ⟨some "t1", none⟩ none
        refreshScenarioServer (some "sec") refreshScenarioCall
       out.refreshes = 0
       ∧ out.attempts = [performRequest "/me" "t1" noOptions]
       ∧ out.result = .error (.apiError 401 (.nonJson "token expired"))) := by
  have h := c2_single_refresh_and_retry "/me" noOptions none
    refreshScenarioServer "sec" refreshScenarioCall "t1" "r1" "t2" (some "r2")
    (by decide) (by decide) (by decide) (by decide) rfl rfl (by decide) rfl
  obtain ⟨⟨h1, h2, h3, h4, _h5, _h6, h7⟩, hb⟩ := h
  refine ⟨⟨h1, h2, h3, h4 "r2" rfl (by decide), h7 (by decide)⟩, ?_⟩
  obtain ⟨g1, g2, g3⟩ := hb
  refine ⟨g1, g2, ?_⟩
  rw [g3]
  rfl

/-- C6.  For each of the nine reserved query names, binding the
parameter with or without its `$` prefix produces the same request, and
the query entry is the canonical prefixed key mapped to the stringified
value. -/
theorem c6_reserved_query_prefix_equivalence
    (toolName tmpl methodStr : String) (errs : List String)
    (n : String) (v : Json) (hn : n ∈ odataParams) :
    bindParams ⟨toolName, tmpl, methodStr, [⟨n, .Query, none⟩], errs⟩ [(n, v)]
      = bindParams ⟨toolName, tmpl, methodStr, [⟨n, .Query, none⟩], errs⟩
          [("$" ++ n, v)]
    ∧ (bindParams ⟨toolName, tmpl, methodStr, [⟨n, .Query, none⟩], errs⟩
        [(n, v)]).queryParams = [("$" ++ n, jsToString v)] := by
  fin_cases hn <;> exact ⟨rfl, rfl⟩

/-- C6 witness: `top` and `$top` bind to the identical `$top` query
entry on a concrete GET endpoint. -/
theorem c6_witness :
    bindParams topQueryTool [("top", Json.num 5)]
      = bindParams topQueryTool [("$top", Json.num 5)]
    ∧ (bindParams topQueryTool [("top", Json.num 5)]).queryParams
      = [("$top", jsToString (Json.num 5))] :=
  c6_reserved_query_prefix_equivalence "list" "/items" "get" [] "top"
    (Json.num 5) (by decide)

/-- In-place key update does not change which other keys `find?` sees. -/
theorem find?_isSome_keyUpdate (k k' : String) (v : Json) :
    ∀ fs : List (String × Json),
      (List.find? (fun p => p.1 == k')
          (fs.map (fun p => if p.1 == k then (p.1, v) else p))).isSome
        = (List.find? (fun p => p.1 == k') fs).isSome
  | [] => rfl
  | p :: rest => by
      have haux : ((if (p.1 == k) = true then (p.1, v) else p).1 == k')
          = (p.1 == k') := by split <;> rfl
      simp only [List.map_cons, List.find?_cons, haux]
      cases hp' : (p.1 == k') with
      | true => simp
      | false =>
          simp only [Option.isSome_some, Option.isSome_none]
          exact find?_isSome_keyUpdate k k' v rest

/-- Updating one key of a JSON object leaves the presence of every other
key unchanged. -/
theorem hasField_objSet_ne (fs : List (String × Json)) (k k' : String)
    (v : Json) (h : k' ≠ k) :
    (Json.obj (objSet fs k v)).hasField k' = (Json.obj fs).hasField k' := by
  have hk : (k == k') = false := by
    simp only [beq_eq_false_iff_ne]
    exact fun hh => h hh.symm
  unfold objSet
  by_cases hany : fs.any (fun p => p.1 == k)
  · rw [if_pos hany]
    simp only [Json.hasField, Json.getField, Option.isSome_map']
    exact find?_isSome_keyUpdate k k' v fs
  · simp only [hany, Bool.false_eq_true, if_false, if_neg, not_false_iff]
    cases hfind : List.find? (fun p => p.1 == k') fs with
    | some q => simp [Json.hasField, Json.getField, List.find?_append, hfind]
    | none =>
        simp [Json.hasField, Json.getField, List.find?_append, hfind,
          List.find?_cons, hk]

/-- With no held refresh token and no token overrides, `makeRequest`
performs exactly one attempt and applies the shared status handling. -/
theorem makeRequest_noRefreshToken (endpoint : String)
    (opts : GraphRequestOptions) (a : String) (authTok : Option String)
    (server : Nat → GraphHttpRequest → HttpResponse) (cs : Option String)
    (rc : String → Option RefreshTokenResponse)
    (ha : a ≠ "") (hoa : opts.accessToken = none)
    (hor : opts.refreshToken = none) :
    makeRequest endpoint opts ⟨some a, none⟩ authTok server cs rc
      = { result := handleFinalResponse
            (server 0 (performRequest endpoint a opts)) opts.includeHeaders
          state := ⟨some a, none⟩
          attempts := [performRequest endpoint a opts]
          refreshes := 0 } := by
  simp [makeRequest, jsOrStr, strTruthy, hoa, hor, ha]

/-- C7 (corrected claim).  When header capture is on and the decoded
body is a plain object without a `_headers` key, the entity tag is
embedded into the result body itself as an `_etag` field (defaulting to
`no-etag-found`), the `_meta` side channel stays empty, and the call
without header capture returns the body without that field: the body is
altered, the metadata channel is not used. -/
theorem c7_etag_embedded_in_body
    (endpoint : String) (opts : GraphRequestOptions) (authTok : Option String)
    (server : Nat → GraphHttpRequest → HttpResponse)
    (cs : Option String) (rc : String → Option RefreshTokenResponse)
    (a : String) (fs : List (String × Json)) (et : Option String)
    (ha : a ≠ "")
    (hoa : opts.accessToken = none) (hor : opts.refreshToken = none)
    (hih : opts.includeHeaders = true) (hraw : opts.rawResponse = false)
    (hexc : opts.excludeResponse = false)
    (hresp : server 0 (performRequest endpoint a opts)
      = ⟨200, .json (.obj fs), et⟩)
    (hnh : (Json.obj fs).hasField "_headers" = false) :
    (let out := graphRequest endpoint opts ⟨some a, none⟩ authTok server cs rc
     out.1.structured
        = removeODataProps (.obj (objSet fs "_etag" (.str (etagValue et))))
     ∧ out.1.meta = none ∧ out.1.isError = false)
    ∧ (let out0 := graphRequest endpoint { opts with includeHeaders := false }
        ⟨some a, none⟩ authTok server cs rc
       out0.1.structured = removeODataProps (.obj fs) ∧ out0.1.meta = none) := by
  have hmk := makeRequest_noRefreshToken endpoint opts a authTok server cs rc
    ha hoa hor
  have hfin : handleFinalResponse (server 0 (performRequest endpoint a opts))
      opts.includeHeaders
      = .ok (.obj (objSet fs "_etag" (.str (etagValue et)))) := by
    simp [hresp, handleFinalResponse, hih, HttpResponse.ok]
  have hnh' : (Json.obj (objSet fs "_etag"
      (.str (etagValue et)))).hasField "_headers" = false := by
    rw [hasField_objSet_ne _ _ _ _ (by decide)]
    exact hnh
  constructor
  · simp [graphRequest, hmk, hfin, formatJsonResponse, hraw, hexc, hnh',
      makeStructured]
  · set opts0 : GraphRequestOptions := { opts with includeHeaders := false }
      with hopts0
    have hoa0 : opts0.accessToken = none := hoa
    have hor0 : opts0.refreshToken = none := hor
    have hraw0 : opts0.rawResponse = false := hraw
    have hexc0 : opts0.excludeResponse = false := hexc
    have hih0 : opts0.includeHeaders = false := rfl
    have hresp0 : server 0 (performRequest endpoint a opts0)
        = ⟨200, .json (.obj fs), et⟩ := hresp
    have hmk0 := makeRequest_noRefreshToken endpoint opts0 a authTok server
      cs rc ha hoa0 hor0
    have hfin0 : handleFinalResponse (server 0 (performRequest endpoint a
        opts0)) opts0.includeHeaders = .ok (.obj fs) := by
      rw [hresp0, hih0]
      simp [handleFinalResponse, HttpResponse.ok]
    simp [graphRequest, hmk0, hfin0, formatJsonResponse, hraw0, hexc0, hraw,
      hexc, hnh, makeStructured]

/-- C7 counterexample (the claim as stated): with header capture on, the
result body gains an `_etag` field — it is not identical to the body
without capture — and the `_meta` side channel remains empty, so no
header reaches the metadata. -/
theorem c7_counterexample :
    (graphRequest "/me" { noOptions with includeHeaders := true }
        scenarioState none etagServer none noRefresh).1.structured
      = .obj [("a", .num 1), ("_etag", .str "W/x")]
    ∧ (graphRequest "/me" noOptions scenarioState none etagServer none
        noRefresh).1.structured = .obj [("a", .num 1)]
    ∧ (graphRequest "/me" { noOptions with includeHeaders := true }
        scenarioState none etagServer none noRefresh).1.meta = none := by
  exact ⟨by decide, by decide, by decide⟩

/-- C7 witness: the amended claim at the concrete ETag scenario. -/
theorem c7_witness :
    (graphRequest "/me" { noOptions with includeHeaders := true }
        ⟨some "tok", none⟩ none etagServer none noRefresh).1.structured
      = removeODataProps (.obj (objSet [("a", .num 1)] "_etag"
          (.str (etagValue (some "W/x")))))
    ∧ (graphRequest "/me" { noOptions with includeHeaders := true }
        ⟨some "tok", none⟩ none etagServer none noRefresh).1.meta = none := by
  have h := c7_etag_embedded_in_body "/me"
    { noOptions with includeHeaders := true } none etagServer none noRefresh
    "tok" [("a", .num 1)] (some "W/x") (by decide) rfl rfl rfl rfl rfl rfl
    (by decide)
  exact ⟨h.1.1, h.1.2.1⟩

/-- `hexDigit` never produces a brace or a colon. -/
theorem hexDigit_allowed (n : Nat) :
    hexDigit n ≠ '{' ∧ hexDigit n ≠ ':' := by
  unfold hexDigit
  have hlt : n % 16 < 16 := Nat.mod_lt _ (by norm_num)
  generalize n % 16 = k at hlt ⊢
  interval_cases k <;> exact ⟨by decide, by decide⟩

/-- `encodeURIComponent` output characters are never a brace or a
colon (they are unreserved characters, `%`, or hex digits). -/
theorem encodeChar_allowed (c : Char) :
    ∀ x ∈ encodeChar c, x ≠ '{' ∧ x ≠ ':' := by
  intro x hx
  unfold encodeChar at hx
  by_cases hu : uriUnreserved c
  · simp only [hu, if_true, if_pos, List.mem_singleton] at hx
    subst hx
    constructor <;> rintro rfl <;> revert hu <;> decide
  · simp only [hu, Bool.false_eq_true, if_false, if_neg, not_false_iff] at hx
    rw [List.mem_flatMap] at hx
    obtain ⟨b, _hb, hxb⟩ := hx
    simp only [pctByte, List.mem_cons, List.mem_singleton,
      List.not_mem_nil, or_false] at hxb
    rcases hxb with rfl | rfl | rfl
    · exact ⟨by decide, by decide⟩
    · exact hexDigit_allowed _
    · exact hexDigit_allowed _

/-- Character-level form of the previous lemma for whole strings. -/
theorem encodeURIComponent_allowed (s : String) :
    ∀ x ∈ (encodeURIComponent s).toList, x ≠ '{' ∧ x ≠ ':' := by
  intro x hx
  unfold encodeURIComponent at hx
  rw [show (List.asString (s.toList.flatMap encodeChar)).toList
      = s.toList.flatMap encodeChar from rfl, List.mem_flatMap] at hx
  obtain ⟨c, _hc, hxc⟩ := hx
  exact encodeChar_allowed c x hxc

/-- A list is a prefix of itself extended by anything. -/
theorem isPrefixOf_append_self : ∀ p q : List Char,
    p.isPrefixOf (p ++ q) = true
  | [], _ => by simp [List.isPrefixOf]
  | x :: xs, q => by simp [List.isPrefixOf, isPrefixOf_append_self xs q]

/-- When the pattern's first character does not occur, first-occurrence
replacement is the identity. -/
theorem listReplaceFirst_not_head (hc : Char) (pt rep : List Char) :
    ∀ s : List Char, hc ∉ s → listReplaceFirst (hc :: pt) rep s = s
  | [], _ => rfl
  | c :: rest, h => by
      have hne : (hc == c) = false := by
        simp only [beq_eq_false_iff_ne]
        rintro rfl
        exact h (List.mem_cons_self _ _)
      simp only [listReplaceFirst, List.isPrefixOf, hne, Bool.false_and,
        Bool.false_eq_true, if_false, if_neg, not_false_iff]
      rw [listReplaceFirst_not_head hc pt rep rest
        (fun hm => h (List.mem_cons_of_mem _ hm))]

/-- When the pattern's first character does not occur, there is no
occurrence. -/
theorem listContainsSub_not_head (hc : Char) (pt : List Char) :
    ∀ s : List Char, hc ∉ s → listContainsSub (hc :: pt) s = false
  | [], _ => rfl
  | c :: rest, h => by
      have hne : (hc == c) = false := by
        simp only [beq_eq_false_iff_ne]
        rintro rfl
        exact h (List.mem_cons_self _ _)
      simp only [listContainsSub, List.isPrefixOf, hne, Bool.false_and,
        Bool.false_or]
      exact listContainsSub_not_head hc pt rest
        (fun hm => h (List.mem_cons_of_mem _ hm))

/-- When the pattern's first character occurs nowhere before the pattern,
first-occurrence replacement rewrites exactly the pattern. -/
theorem listReplaceFirst_unique (hc : Char) (pt rep : List Char) :
    ∀ a b : List Char, hc ∉ a →
      listReplaceFirst (hc :: pt) rep (a ++ (hc :: pt) ++ b) = a ++ rep ++ b
  | [], b, _ => by
      simp only [List.nil_append, listReplaceFirst, List.isPrefixOf,
        List.append_eq, beq_self_eq_true, Bool.true_and,
        isPrefixOf_append_self, if_true, if_pos, List.length_cons,
        List.drop_succ_cons, List.drop_left]
  | a0 :: a', b, h => by
      have hne : (hc == a0) = false := by
        simp only [beq_eq_false_iff_ne]
        rintro rfl
        exact h (List.mem_cons_self _ _)
      simp only [List.cons_append, listReplaceFirst, List.isPrefixOf, hne,
        List.append_eq, Bool.false_and, Bool.false_eq_true, if_false, if_neg,
        not_false_iff]
      rw [listReplaceFirst_unique hc pt rep a' b
        (fun hm => h (List.mem_cons_of_mem _ hm))]

/-- C5 counterexample (the claim as stated): when the same placeholder
occurs twice in the template, binding replaces only the first occurrence
— one `{id}` remains in the resolved path. -/
theorem c5_counterexample :
    (bindParams dupPathTool [("id", Json.str "x")]).path
      = "/items/x/copies/\x7bid\x7d"
    ∧ strContainsSub (bindParams dupPathTool [("id", Json.str "x")]).path
        "\x7bid\x7d" = true := by
  exact ⟨by decide, by decide⟩

/-- C5 (corrected claim).  Path binding replaces the first occurrence of
each placeholder syntax with the URL-encoded value; on a template whose
placeholder occurs once (in brace form, with no stray `{` or `:` around
it) the placeholder is fully resolved and no occurrence of either
placeholder syntax remains, because the encoded value never contains `{`
or `:`. -/
theorem c5_first_occurrence_only
    (toolName methodStr name v a b : String) (errs : List String)
    (hctl : controlParams.contains name = false)
    (ha : ∀ c ∈ a.toList, c ≠ '{' ∧ c ≠ ':')
    (hb : ∀ c ∈ b.toList, c ≠ '{' ∧ c ≠ ':') :
    (bindParams
        ⟨toolName, a ++ "\x7b" ++ name ++ "\x7d" ++ b, methodStr,
          [⟨name, .Path, none⟩], errs⟩
        [(name, Json.str v)]).path = a ++ encodeURIComponent v ++ b
    ∧ strContainsSub (a ++ encodeURIComponent v ++ b)
        ("\x7b" ++ name ++ "\x7d") = false
    ∧ strContainsSub (a ++ encodeURIComponent v ++ b) (":" ++ name)
        = false := by
  have hnotinA : '{' ∉ a.toList := fun hm => (ha _ hm).1 rfl
  have hcolon : ∀ x ∈ (a ++ encodeURIComponent v ++ b).toList, x ≠ ':' := by
    intro x hx
    rw [show ((a ++ encodeURIComponent v ++ b)).toList
        = (a.toList ++ (encodeURIComponent v).toList) ++ b.toList from rfl,
      List.mem_append, List.mem_append] at hx
    rcases hx with (hx | hx) | hx
    · exact (ha _ hx).2
    · exact (encodeURIComponent_allowed v _ hx).2
    · exact (hb _ hx).2
  have hbrace : ∀ x ∈ (a ++ encodeURIComponent v ++ b).toList, x ≠ '{' := by
    intro x hx
    rw [show ((a ++ encodeURIComponent v ++ b)).toList
        = (a.toList ++ (encodeURIComponent v).toList) ++ b.toList from rfl,
      List.mem_append, List.mem_append] at hx
    rcases hx with (hx | hx) | hx
    · exact (ha _ hx).1
    · exact (encodeURIComponent_allowed v _ hx).1
    · exact (hb _ hx).1
  have hfirst : strReplaceFirst (a ++ "\x7b" ++ name ++ "\x7d" ++ b)
      ("\x7b" ++ name ++ "\x7d") (encodeURIComponent v)
      = a ++ encodeURIComponent v ++ b := by
    unfold strReplaceFirst
    have hshape : (a ++ "\x7b" ++ name ++ "\x7d" ++ b).toList
        = a.toList ++ ('{' :: (name.toList ++ ['\x7d'])) ++ b.toList := by
      rw [show (a ++ "\x7b" ++ name ++ "\x7d" ++ b).toList
          = ((a.toList ++ ['\x7b']) ++ name.toList ++ ['\x7d']) ++ b.toList
          from rfl]
      simp
    have hpat : ("\x7b" ++ name ++ "\x7d").toList
        = '{' :: (name.toList ++ ['\x7d']) := by
      rw [show ("\x7b" ++ name ++ "\x7d").toList
          = (['\x7b'] ++ name.toList) ++ ['\x7d'] from rfl]
      simp
    rw [hshape, hpat, listReplaceFirst_unique '{' (name.toList ++ ['\x7d'])
      (encodeURIComponent v).toList a.toList b.toList hnotinA]
    rfl
  have hsecond : strReplaceFirst (a ++ encodeURIComponent v ++ b)
      (":" ++ name) (encodeURIComponent v) = a ++ encodeURIComponent v ++ b := by
    unfold strReplaceFirst
    rw [show (":" ++ name).toList = ':' :: name.toList from rfl,
      listReplaceFirst_not_head ':' name.toList (encodeURIComponent v).toList
        _ (fun hm => hcolon _ hm rfl)]
    rfl
  have hbind : (bindParams
      ⟨toolName, a ++ "\x7b" ++ name ++ "\x7d" ++ b, methodStr,
        [⟨name, .Path, none⟩], errs⟩ [(name, Json.str v)]).path
      = strReplaceFirst (strReplaceFirst (a ++ "\x7b" ++ name ++ "\x7d" ++ b)
          ("\x7b" ++ name ++ "\x7d") (encodeURIComponent v))
          (":" ++ name) (encodeURIComponent v) := by
    have hctl' : name ∉ controlParams := by simpa using hctl
    simp [bindParams, bindStep, hctl', jsToString]
  refine ⟨?_, ?_, ?_⟩
  · rw [hbind, hfirst, hsecond]
  · unfold strContainsSub
    rw [show ("\x7b" ++ name ++ "\x7d").toList
        = '{' :: (name.toList ++ ['\x7d']) by
      rw [show ("\x7b" ++ name ++ "\x7d").toList
          = (['\x7b'] ++ name.toList) ++ ['\x7d'] from rfl]
      simp]
    exact listContainsSub_not_head '{' _ _ (fun hm => hbrace _ hm rfl)
  · unfold strContainsSub
    rw [show (":" ++ name).toList = ':' :: name.toList from rfl]
    exact listContainsSub_not_head ':' _ _ (fun hm => hcolon _ hm rfl)

/-- C5 witness: the amended claim at a concrete single-occurrence
template. -/
theorem c5_witness :
    (bindParams
        ⟨"get-item", "/items/" ++ "\x7b" ++ "id" ++ "\x7d" ++ "/copies",
          "get", [⟨"id", .Path, none⟩], []⟩
        [("id", Json.str "x")]).path
      = "/items/" ++ encodeURIComponent "x" ++ "/copies"
    ∧ strContainsSub ("/items/" ++ encodeURIComponent "x" ++ "/copies")
        ("\x7b" ++ "id" ++ "\x7d") = false
    ∧ strContainsSub ("/items/" ++ encodeURIComponent "x" ++ "/copies")
        (":" ++ "id") = false :=
  c5_first_occurrence_only "get-item" "get" "id" "x" "/items/" "/copies" []
    (by decide) (by decide) (by decide)

/-- Every folder enumerated below depth `d` has depth greater than `d`. -/
theorem allFolderDepths_gt : ∀ (cs : List Item) (d : Nat) (p : String × Nat),
    p ∈ allFolderDepths cs d → d < p.2
  | [], _, _, h => by simp [allFolderDepths] at h
  | .file i n :: rest, d, p, h =>
      allFolderDepths_gt rest d p (by simpa [allFolderDepths] using h)
  | .folder i n cs :: rest, d, p, h => by
      simp only [allFolderDepths, List.mem_cons, List.mem_append] at h
      rcases h with rfl | h | h
      · simp
      · have := allFolderDepths_gt cs (d + 1) p h
        omega
      · exact allFolderDepths_gt rest d p h

/-- The walk recurses into exactly the folders whose depth is within the
ceiling: its instrumentation equals the full folder enumeration filtered
to depths `≤ m`. -/
theorem walkItems_walked (tm incl : Bool) (f : Option String) (m : Nat)
    (sid did dn : String) :
    ∀ (cs : List Item) (path : String) (d : Nat),
      (walkItems tm incl f m sid did dn cs path d).walked
        = (allFolderDepths cs d).filter (fun p => decide (p.2 ≤ m))
  | [], _, _ => by simp [walkItems, allFolderDepths]
  | .file i n :: rest, path, d => by
      simp [walkItems, allFolderDepths,
        walkItems_walked tm incl f m sid did dn rest path d]
  | .folder i n cs :: rest, path, d => by
      by_cases h : d < m
      · have h1 : d + 1 ≤ m := h
        simp [walkItems, allFolderDepths, h, h1, Item.name,
          walkItems_walked tm incl f m sid did dn cs
            (childPathOf path n) (d + 1),
          walkItems_walked tm incl f m sid did dn rest path d]
      · have hnil : (allFolderDepths cs (d + 1)).filter
            (fun p => decide (p.2 ≤ m)) = [] := by
          rw [List.filter_eq_nil_iff]
          intro p hp
          have := allFolderDepths_gt cs (d + 1) p hp
          simp only [decide_eq_true_eq]
          omega
        have h2 : ¬(d + 1 ≤ m) := by omega
        simp [walkItems, allFolderDepths, h, h2, hnil,
          walkItems_walked tm incl f m sid did dn rest path d]

/-- The truncation flag computed by the walk is exactly "some folder
lies more than `m - d` levels below this child list". -/
theorem walkItems_truncated (tm incl : Bool) (f : Option String) (m : Nat)
    (sid did dn : String) :
    ∀ (cs : List Item) (path : String) (d : Nat), d ≤ m →
      (walkItems tm incl f m sid did dn cs path d).truncated
        = hasFolderBeyond (m - d) cs
  | [], path, d, hd => by
      cases hmd : m - d <;> simp [walkItems, hasFolderBeyond]
  | .file i n :: rest, path, d, hd => by
      have ih := walkItems_truncated tm incl f m sid did dn rest path d hd
      cases hmd : m - d with
      | zero => simp [walkItems, hasFolderBeyond, ← hmd, ih]
      | succ k => simp [walkItems, hasFolderBeyond, ← hmd, ih]
  | .folder i n cs :: rest, path, d, hd => by
      by_cases h : d < m
      · have harith : m - d = (m - (d + 1)) + 1 := by omega
        have ihcs := walkItems_truncated tm incl f m sid did dn cs
          (childPathOf path n) (d + 1) h
        have ihrest := walkItems_truncated tm incl f m sid did dn rest path d
          hd
        rw [harith] at ihrest ⊢
        simp [walkItems, hasFolderBeyond, h, ihcs, ihrest, Item.name]
      · have hdm : d = m := by omega
        subst hdm
        simp [walkItems, hasFolderBeyond, Nat.sub_self]

/-- Flat-mode emission is the visited-children list filtered by the
emission predicate (filter on files, include-folders-and-filter on
folders). -/
theorem walkItems_flat (tm incl : Bool) (f : Option String) (m : Nat)
    (sid did dn : String) :
    ∀ (cs : List Item) (path : String) (d : Nat),
      (walkItems tm incl f m sid did dn cs path d).flat
        = (visitedNodes m sid did cs path d).filter (emitPred incl f)
  | [], _, _ => by simp [walkItems, visitedNodes]
  | .file i n :: rest, path, d => by
      have ih := walkItems_flat tm incl f m sid did dn rest path d
      by_cases hm : matchesFilter n f <;>
        simp [walkItems, visitedNodes, emitChild, emitPred, mkBaseNode,
          Item.isFolder, Item.name, hm, ih, FileNode.isFolder, FileNode.name]
  | .folder i n cs :: rest, path, d => by
      have ihrest := walkItems_flat tm incl f m sid did dn rest path d
      by_cases h : d < m
      · have ihcs := walkItems_flat tm incl f m sid did dn cs
          (childPathOf path n) (d + 1)
        by_cases hm : incl && matchesFilter n f <;>
          simp [walkItems, visitedNodes, emitChild, emitPred, mkBaseNode,
            Item.isFolder, Item.name, h, hm, ihcs, ihrest, FileNode.isFolder,
            FileNode.name]
      · by_cases hm : incl && matchesFilter n f <;>
          simp [walkItems, visitedNodes, emitChild, emitPred, mkBaseNode,
            Item.isFolder, Item.name, h, hm, ihrest, FileNode.isFolder,
            FileNode.name]

/-- In tree mode, the leaves attached below the produced child nodes are
exactly the visited non-folder children — no filter is applied to
them. -/
theorem walkItems_treeLeaves (incl : Bool) (f : Option String) (m : Nat)
    (sid did dn : String) :
    ∀ (cs : List Item) (path : String) (d : Nat),
      treeLeavesList ((walkItems true incl f m sid did dn cs path d).children)
        = (visitedNodes m sid did cs path d).filter (fun n => !n.isFolder)
  | [], _, _ => by simp [walkItems, visitedNodes, treeLeavesList]
  | .file i n :: rest, path, d => by
      have ih := walkItems_treeLeaves incl f m sid did dn rest path d
      simp [walkItems, visitedNodes, treeLeavesList, mkBaseNode,
        Item.isFolder, Item.name, FileNode.isFolder, ih, treeLeaves]
  | .folder i n cs :: rest, path, d => by
      have ihrest := walkItems_treeLeaves incl f m sid did dn rest path d
      by_cases h : d < m
      · have ihcs := walkItems_treeLeaves incl f m sid did dn cs
          (childPathOf path n) (d + 1)
        simp [walkItems, visitedNodes, treeLeavesList, mkBaseNode,
          mkWalkNode, Item.isFolder, Item.name, FileNode.isFolder, h, ihcs,
          ihrest, treeLeaves]
      · simp [walkItems, visitedNodes, treeLeavesList, mkBaseNode,
          Item.isFolder, Item.name, FileNode.isFolder, h, ihrest, treeLeaves]

/-- C8.  A requested depth above the hard ceiling of 20 is silently
clamped to 20; the traversal walks exactly the folders whose depth is
within the effective ceiling (so folders at the ceiling depth are still
walked, and nothing below them is recursed into); and the truncation
flag is set exactly when the hierarchy holds a folder deeper than the
ceiling — in particular it stays `false` when no folder is cut off. -/
theorem c8_depth_clamp_and_truncation (treeMode incl : Bool)
    (f : Option String) (maxDepth : Option Nat) (siteId : String)
    (drive : SharePointDriveInfo) (rootChildren : List Item) :
    (∀ d : Nat, 20 < d → effectiveMaxDepth (some d) = 20)
    ∧ (collectSharePointFiles treeMode incl f maxDepth siteId drive
        rootChildren).walked
      = (drive.rootItemId, 0)
          :: (allFolderDepths rootChildren 0).filter
              (fun p => decide (p.2 ≤ effectiveMaxDepth maxDepth))
    ∧ (collectSharePointFiles treeMode incl f maxDepth siteId drive
        rootChildren).truncated
      = hasFolderBeyond (effectiveMaxDepth maxDepth) rootChildren := by
  refine ⟨fun d hd => ?_, ?_, ?_⟩
  · simp only [effectiveMaxDepth, SAFE_MAX_DEPTH, Option.getD_some]
    omega
  · simp [collectSharePointFiles,
      walkItems_walked treeMode incl f (effectiveMaxDepth maxDepth) siteId
        drive.driveId drive.driveName rootChildren "/" 0]
  · have h := walkItems_truncated treeMode incl f (effectiveMaxDepth maxDepth)
      siteId drive.driveId drive.driveName rootChildren "/" 0 (Nat.zero_le _)
    simp [collectSharePointFiles, h]

/-- C8 witness: a depth-2 hierarchy under `maxDepth = 25` — the ceiling
clamps to 20, the walk instrumentation matches the bounded folder
enumeration and the truncation flag matches the depth test. -/
theorem c8_witness :
    effectiveMaxDepth (some 25) = 20
    ∧ (collectSharePointFiles false false none (some 25) "s"
        ⟨"d", "Docs", "root"⟩
        [.folder "f1" "A" [.folder "f2" "B" [.file "x" "deep.txt"]]]).walked
      = ("root", 0)
          :: (allFolderDepths
              [.folder "f1" "A" [.folder "f2" "B" [.file "x" "deep.txt"]]]
              0).filter (fun p => decide (p.2 ≤ effectiveMaxDepth (some 25)))
    ∧ (collectSharePointFiles false false none (some 25) "s"
        ⟨"d", "Docs", "root"⟩
        [.folder "f1" "A" [.folder "f2" "B" [.file "x" "deep.txt"]]]).truncated
      = hasFolderBeyond (effectiveMaxDepth (some 25))
          [.folder "f1" "A" [.folder "f2" "B" [.file "x" "deep.txt"]]] := by
  have h := c8_depth_clamp_and_truncation false false none (some 25) "s"
    ⟨"d", "Docs", "root"⟩
    [.folder "f1" "A" [.folder "f2" "B" [.file "x" "deep.txt"]]]
  exact ⟨h.1 25 (by norm_num), h.2.1, h.2.2⟩

/-- C9.  In flat mode the result list is exactly the visited children
filtered by the emission predicate — files must match the filter, and
folders additionally require include-folders, so a folder failing the
filter is never emitted; in tree mode the leaves attached below the root
are exactly the visited non-folder children, unconditionally. -/
theorem c9_flat_filter_tree_unconditional (incl : Bool) (f : Option String)
    (maxDepth : Option Nat) (siteId : String) (drive : SharePointDriveInfo)
    (rootChildren : List Item) :
    (collectSharePointFiles false incl f maxDepth siteId drive
        rootChildren).items
      = (visitedNodes (effectiveMaxDepth maxDepth) siteId drive.driveId
          rootChildren "/" 0).filter (emitPred incl f)
    ∧ treeLeaves (collectSharePointFiles true incl f maxDepth siteId drive
        rootChildren).root
      = (visitedNodes (effectiveMaxDepth maxDepth) siteId drive.driveId
          rootChildren "/" 0).filter (fun n => !n.isFolder) := by
  constructor
  · simp [collectSharePointFiles,
      walkItems_flat false incl f (effectiveMaxDepth maxDepth) siteId
        drive.driveId drive.driveName rootChildren "/" 0]
  · have h := walkItems_treeLeaves incl f (effectiveMaxDepth maxDepth) siteId
      drive.driveId drive.driveName rootChildren "/" 0
    simp [collectSharePointFiles, mkWalkNode, treeLeaves, h]

/-- C10.  Under every registration configuration — read-only mode
included — `download-file-to-local` is registered: the read-only
exclusion applies only inside the catalog loop, and every catalog tool
registered under read-only mode has a GET method. -/
theorem c10_download_tool_registered_in_read_only
    (endpoints : List ToolDef) (endpointsData : List EndpointConfig)
    (readOnly orgMode : Bool) (pat : Option (String → Bool)) :
    "download-file-to-local"
        ∈ registerGraphTools endpoints endpointsData readOnly pat orgMode
    ∧ ∀ name ∈ registeredCatalogTools endpoints endpointsData true orgMode pat,
        ∃ t ∈ endpoints, t.alias = name ∧ strUpper t.method = "GET" := by
  constructor
  · unfold registerGraphTools
    simp
  · intro name hname
    unfold registeredCatalogTools at hname
    simp only [List.mem_map, List.mem_filter] at hname
    obtain ⟨t, ⟨ht, hvis⟩, halias⟩ := hname
    refine ⟨t, ht, halias, ?_⟩
    unfold toolVisible at hvis
    simp only [Bool.and_eq_true, Bool.not_eq_true'] at hvis
    have h2 := hvis.1.2
    by_contra hne
    simp [hne] at h2

/-- C10 witness: a concrete read-only configuration with one non-GET
catalog endpoint still registers the download tool. -/
theorem c10_witness :
    "download-file-to-local"
        ∈ registerGraphTools [dupPathTool] [] true none false :=
  (c10_download_tool_registered_in_read_only [dupPathTool] [] true false
    none).1

end MsGraph
